import Mathlib

/-!
# Verification of the PennyPal Group expense-splitting and debt-simplification engine

This file gives a shallow embedding, in Lean 4, of the `Group` Mongoose model
(instance methods `addMember`, `removeMember`, `addExpense`, `calculateDebts`,
`settleDebt`) and proves/refutes the specification claims about it.

Modelling conventions:
* JavaScript numbers are modelled as exact rationals `ℚ`.  The one place the
  code can produce `NaN` — reading a key that was never initialised in the
  per-currency balance object (`undefined + x` is `NaN`) — is modelled
  explicitly: a balance value is an `Option ℚ`, with `none` standing for `NaN`
  and a missing key standing for `undefined`.
* JavaScript objects used as string-keyed dictionaries are modelled as
  association lists `List (String × α)` in insertion order, which is the
  enumeration order of `Object.keys` for these (non-index) keys.
* Mongoose subdocument ids for debts are modelled positionally: `settleDebt`
  addresses a debt by its index in the `simplifyDebt` array, standing in for
  the unique `_id` lookup `this.simplifyDebt.id(debtId)`.
* Dates are modelled as `Nat` timestamps passed in as a `now` argument.
* `this.save()` returns the mutated document; methods are modelled as pure
  functions `Group → Option GroupError × Group` where a thrown `Error`
  becomes `some err` together with the unmutated group (all throws in the
  source happen before any mutation of the document).  The `pre('save')`
  middleware only re-sorts the `comments` and `billSplit` arrays by date; it
  never changes membership, lengths or amounts, and is not modelled.
* Enumerated string fields (`status`, `role`, `currency`, `category`) stay
  `String`, exactly as in the schema.
-/

namespace PennyPal

/-- A single share of an expense (`splitBetween` array entry of
`billSplitItemSchema`). -/
structure Split where
  userId : String
  username : String
  amount : ℚ
deriving DecidableEq

/-- One expense ledger entry (`billSplitItemSchema`). -/
structure Expense where
  description : String
  amount : ℚ
  currency : String
  paidBy : String
  paidByUsername : String
  splitBetween : List Split
  date : Nat
  category : String
  receiptUrl : Option String
  notes : Option String
deriving DecidableEq

/-- A party of a debt (the `from`/`to` subdocuments of `debtSchema`). -/
structure DebtParty where
  userId : String
  username : String
deriving DecidableEq

/-- One simplified pairwise obligation (`debtSchema`).  `from` is a Lean
keyword, so the source fields `from`/`to` are called `from_`/`to_`. -/
structure Debt where
  from_ : DebtParty
  to_ : DebtParty
  amount : ℚ
  currency : String
  status : String
  settledAt : Option Nat
  settledBy : Option String
deriving DecidableEq

/-- One membership record (entry of the `members` array of `groupSchema`). -/
structure Member where
  userId : String
  username : String
  joinedAt : Nat
  role : String
  isActive : Bool
deriving DecidableEq

/-- The `Group` document fields relevant to the claims. -/
structure Group where
  members : List Member
  billSplit : List Expense
  simplifyDebt : List Debt
  defaultCurrency : String
  allowMultipleCurrencies : Bool
  autoSimplifyDebts : Bool
  maxMembers : Nat
deriving DecidableEq

/-- The `throw new Error(...)` cases of the instance methods, one constructor
per distinct error message. -/
inductive GroupError where
  | CurrencyNotAllowed
  | InvalidSplitParticipant
  | SplitMismatch
  | NotAMember
  | OutstandingDebt
  | AlreadyMember
  | CapacityExceeded
  | DebtNotFound
  | AlreadySettled
deriving DecidableEq

/-- The floating-point tolerance `0.01` used throughout the source. -/
def cent : ℚ := 1 / 100

/-- Lookup in a string-keyed association list (JS `obj[k]`, distinguishing a
present value from `undefined`). -/
def alookup {α : Type} : List (String × α) → String → Option α
  | [], _ => none
  | (k, v) :: rest, key => if k == key then some v else alookup rest key

/-- Assignment `obj[k] = v`: overwrite in place if the key is present,
otherwise append the key (JS insertion order). -/
def aset {α : Type} : List (String × α) → String → α → List (String × α)
  | [], key, v => [(key, v)]
  | (k, w) :: rest, key, v =>
    if k == key then (k, v) :: rest else (k, w) :: aset rest key v

/-- A per-currency balance object: member id → JS number, where `none` is
`NaN`. -/
abbrev Bal := List (String × Option ℚ)

/-- JS truthiness test for `!obj[k]` on a number slot: `undefined`, `NaN`
and `0` are falsy. -/
def jsFalsy : Option (Option ℚ) → Bool
  | none => true
  | some none => true
  | some (some q) => q == 0

/-- JS addition `obj[k] + x`: `undefined + x` and `NaN + x` are `NaN`. -/
def jsAdd : Option (Option ℚ) → ℚ → Option ℚ
  | none, _ => none
  | some none, _ => none
  | some (some q), x => some (q + x)

/-- `obj[k] += x`. -/
def bumpAdd (bal : Bal) (k : String) (x : ℚ) : Bal :=
  aset bal k (jsAdd (alookup bal k) x)

/-- `obj[k] -= x`. -/
def bumpSub (bal : Bal) (k : String) (x : ℚ) : Bal :=
  aset bal k (jsAdd (alookup bal k) (-x))

/-- JS comparison `obj[k] > c`: false for `undefined` and `NaN`. -/
def jsGt : Option (Option ℚ) → ℚ → Bool
  | some (some q), c => decide (c < q)
  | _, _ => false

/-- JS comparison `obj[k] < c`: false for `undefined` and `NaN`. -/
def jsLt : Option (Option ℚ) → ℚ → Bool
  | some (some q), c => decide (q < c)
  | _, _ => false

/-- The numeric value of a balance slot where the code has already ruled out
`undefined`/`NaN` by a comparison; `0` elsewhere (unreachable there). -/
def jsVal : Option (Option ℚ) → ℚ
  | some (some q) => q
  | _ => 0

/-- Ids of the active members, in member-array order
(`this.members.filter(m => m.isActive).map(m => m.userId.toString())`). -/
def activeIds (ms : List Member) : List String :=
  (ms.filter (fun m => m.isActive)).map (fun m => m.userId)

/-- The member-initialisation pass of `calculateDebts`:
`if (!balances[id]) balances[id] = 0` for each active member id. -/
def initMembers (bal : Bal) (ids : List String) : Bal :=
  ids.foldl (fun b id => if jsFalsy (alookup b id) then aset b id (some 0) else b) bal

/-- Processing of one expense inside the `billSplit.forEach` loop of
`calculateDebts`: fetch (or create) the balance object of the expense's
currency, initialise active members, credit the payer, debit each split. -/
def applyExpense (ms : List Member) (acc : List (String × Bal)) (e : Expense) :
    List (String × Bal) :=
  let bal0 := (alookup acc e.currency).getD []
  let bal1 := initMembers bal0 (activeIds ms)
  let bal2 := bumpAdd bal1 e.paidBy e.amount
  let bal3 := e.splitBetween.foldl (fun b s => bumpSub b s.userId s.amount) bal2
  aset acc e.currency bal3

/-- The `debtsByCurrency` object after the first phase of `calculateDebts`. -/
def balancesByCurrency (ms : List Member) (bills : List Expense) :
    List (String × Bal) :=
  bills.foldl (applyExpense ms) []

/-- A creditor/debtor work item of the second phase of `calculateDebts`. -/
structure Party where
  userId : String
  amount : ℚ
  username : String
deriving DecidableEq

/-- `this.members.find(m => m.userId.toString() === id).username`; the
`.getD ""` default is unreachable: every id with a non-`NaN` balance was
initialised from the members array. -/
def usernameOf (ms : List Member) (id : String) : String :=
  ((ms.find? (fun m => m.userId == id)).map (fun m => m.username)).getD ""

/-- The creditors of one currency: members with balance `> 0.01`. -/
def creditorsOf (ms : List Member) (bal : Bal) : List Party :=
  ((bal.map Prod.fst).filter (fun id => jsGt (alookup bal id) cent)).map
    (fun id =>
      { userId := id, amount := jsVal (alookup bal id), username := usernameOf ms id })

/-- The debtors of one currency: members with balance `< -0.01`, carrying the
balance magnitude. -/
def debtorsOf (ms : List Member) (bal : Bal) : List Party :=
  ((bal.map Prod.fst).filter (fun id => jsLt (alookup bal id) (-cent))).map
    (fun id =>
      { userId := id, amount := |jsVal (alookup bal id)|, username := usernameOf ms id })

/-- `Math.round(q * 100) / 100`. -/
def roundCents (q : ℚ) : ℚ := (round (q * 100) : ℤ) / 100

/-- One round of the greedy two-pointer settlement `while` loop of
`calculateDebts`, written with an explicit fuel counter so that the
recursion is structural (the theorem `settleLoopGo_fuel_irrel` below shows
any fuel of at least `creditors.length + debtors.length` gives the same
result, which is why the fuel is not an approximation of the source loop).
The source advances `i` when the creditor's remainder drops below `0.01`
and `j` when the debtor's does; the transferred amount is the minimum of
the two remainders, so at least one remainder becomes `0` each round: in
the branch where the creditor's remainder stays `≥ 0.01` the debtor's is
`0` and only `j` advances, and each round retires at least one list head,
so the loop runs at most `creditors.length + debtors.length` rounds. -/
def settleLoopGo (currency : String) : Nat → List Party → List Party → List Debt
  | _, [], _ => []
  | _, _ :: _, [] => []
  | 0, _ :: _, _ :: _ => []
  | fuel + 1, c :: cs, d :: ds =>
    let s := min c.amount d.amount
    let emitted : List Debt :=
      if cent < s then
        [{ from_ := { userId := d.userId, username := d.username },
           to_ := { userId := c.userId, username := c.username },
           amount := roundCents s, currency := currency, status := "pending",
           settledAt := none, settledBy := none }]
      else []
    if c.amount - s < cent then
      if d.amount - s < cent then emitted ++ settleLoopGo currency fuel cs ds
      else emitted ++ settleLoopGo currency fuel cs ({ d with amount := d.amount - s } :: ds)
    else emitted ++ settleLoopGo currency fuel ({ c with amount := c.amount - s } :: cs) ds

/-- The greedy settlement loop, run with exactly the fuel it can consume. -/
def settleLoop (currency : String) (creditors debtors : List Party) : List Debt :=
  settleLoopGo currency (creditors.length + debtors.length) creditors debtors

/-- The debt record one loop round pushes (used to state the one-step
unfolding of `settleLoopGo`). -/
def roundDebt (cur : String) (c d : Party) : Debt :=
  { from_ := { userId := d.userId, username := d.username },
    to_ := { userId := c.userId, username := c.username },
    amount := roundCents (min c.amount d.amount), currency := cur,
    status := "pending", settledAt := none, settledBy := none }

/-- Stable insertion of `x` after every already-placed element that sorts
no later than it. -/
def insertStable (le : Party → Party → Bool) (x : Party) : List Party → List Party
  | [] => [x]
  | y :: ys => if le y x then y :: insertStable le x ys else x :: y :: ys

/-- JS `Array.prototype.sort` with comparator `(a, b) => b.amount - a.amount`:
a stable sort, descending by amount.  A stable sort's output is uniquely
determined by the comparator and the input order, so stable insertion sort
(processing the array left to right, placing each element after earlier
elements of equal amount) models it exactly. -/
def sortByAmountDesc (l : List Party) : List Party :=
  l.foldl (fun acc x =>
    insertStable (fun a b => decide (b.amount ≤ a.amount)) x acc) []

/-- The per-currency debt construction of `calculateDebts`: partition into
creditors and debtors, sort both descending by amount, then run the greedy
loop. -/
def debtsFor (ms : List Member) (currency : String) (bal : Bal) : List Debt :=
  settleLoop currency (sortByAmountDesc (creditorsOf ms bal))
    (sortByAmountDesc (debtorsOf ms bal))

/-- `groupSchema.methods.calculateDebts`: discard `simplifyDebt`, rebuild the
per-currency balances from the whole `billSplit`, and emit the simplified
debts currency by currency. -/
def calculateDebts (g : Group) : Group :=
  { g with
    simplifyDebt :=
      ((balancesByCurrency g.members g.billSplit).map
        (fun p => debtsFor g.members p.1 p.2)).flatten }

/-- The active-member id list computed at the top of `addExpense`; the source
expression `this.members.filter(m => m.isActive).map(m => m.userId.toString())`
is the same one `calculateDebts` uses (`activeIds`). -/
def memberIdsActive (g : Group) : List String :=
  activeIds g.members

/-- `sum(splitBetween.amount)` via `reduce`. -/
def splitTotal (splitBetween : List Split) : ℚ :=
  splitBetween.foldl (fun sum s => sum + s.amount) 0

/-- The expense object `addExpense` pushes onto `billSplit`. -/
def mkExpense (description : String) (amount : ℚ)
    (currency paidBy paidByUsername : String) (splitBetween : List Split)
    (category : String) (receiptUrl notes : Option String) (now : Nat) :
    Expense :=
  { description := description, amount := amount, currency := currency,
    paidBy := paidBy, paidByUsername := paidByUsername,
    splitBetween := splitBetween, date := now, category := category,
    receiptUrl := receiptUrl, notes := notes }

/-- `groupSchema.methods.addExpense`. -/
def addExpense (g : Group) (description : String) (amount : ℚ) (currency : String)
    (paidBy paidByUsername : String) (splitBetween : List Split)
    (category : String) (receiptUrl notes : Option String) (now : Nat) :
    Option GroupError × Group :=
  if !g.allowMultipleCurrencies && currency != g.defaultCurrency then
    (some .CurrencyNotAllowed, g)
  else
    let invalidUsers := splitBetween.filter
      (fun s => !((memberIdsActive g).contains s.userId))
    if invalidUsers.length > 0 then (some .InvalidSplitParticipant, g)
    else if cent < |splitTotal splitBetween - amount| then (some .SplitMismatch, g)
    else
      let expense : Expense := mkExpense description amount currency paidBy
        paidByUsername splitBetween category receiptUrl notes now
      let g1 : Group := { g with billSplit := g.billSplit ++ [expense] }
      (none, if g.autoSimplifyDebts then calculateDebts g1 else g1)

/-- Active member count (the `memberCount` virtual). -/
def memberCount (g : Group) : Nat := (g.members.filter (fun m => m.isActive)).length

/-- Reactivation of the first membership record with the given user id
(mutation of the object returned by `members.find`). -/
def reactivate : List Member → String → Nat → List Member
  | [], _, _ => []
  | m :: rest, userId, now =>
    if m.userId == userId then { m with isActive := true, joinedAt := now } :: rest
    else m :: reactivate rest userId now

/-- `groupSchema.methods.addMember`.  The source's default argument
`role = 'member'` is `addMemberDefault` below. -/
def addMember (g : Group) (userId username role : String) (now : Nat) :
    Option GroupError × Group :=
  match g.members.find? (fun m => m.userId == userId) with
  | some existingMember =>
    if !existingMember.isActive then
      (none, { g with members := reactivate g.members userId now })
    else (some .AlreadyMember, g)
  | none =>
    if memberCount g ≥ g.maxMembers then (some .CapacityExceeded, g)
    else
      (none, { g with members := g.members ++
        [{ userId := userId, username := username, joinedAt := now,
           role := role, isActive := true }] })

/-- `addMember` with the source's default `role = 'member'`. -/
def addMemberDefault (g : Group) (userId username : String) (now : Nat) :
    Option GroupError × Group :=
  addMember g userId username "member" now

/-- Deactivation of the first membership record with the given user id. -/
def deactivateFirst : List Member → String → List Member
  | [], _ => []
  | m :: rest, userId =>
    if m.userId == userId then { m with isActive := false } :: rest
    else m :: deactivateFirst rest userId

/-- `groupSchema.methods.removeMember`. -/
def removeMember (g : Group) (userId : String) : Option GroupError × Group :=
  match g.members.find? (fun m => m.userId == userId) with
  | none => (some .NotAMember, g)
  | some _ =>
    let hasDebts := g.simplifyDebt.any (fun d =>
      (d.from_.userId == userId || d.to_.userId == userId) && d.status == "pending")
    if hasDebts then (some .OutstandingDebt, g)
    else (none, { g with members := deactivateFirst g.members userId })

/-- `groupSchema.methods.settleDebt`, with the subdocument id modelled as the
index into `simplifyDebt`. -/
def settleDebt (g : Group) (debtIdx : Nat) (settledBy : String) (now : Nat) :
    Option GroupError × Group :=
  match g.simplifyDebt.get? debtIdx with
  | none => (some .DebtNotFound, g)
  | some debt =>
    if debt.status != "pending" then (some .AlreadySettled, g)
    else
      let settled : Debt :=
        { debt with
          status := "settled", settledAt := some now,
          settledBy := some settledBy }
      (none, { g with simplifyDebt := g.simplifyDebt.set debtIdx settled })

/-- The currency enumeration of `billSplitItemSchema`. -/
def validCurrency (c : String) : Bool :=
  ["IDR", "USD", "EUR", "JPY", "SGD", "MYR", "KRW"].contains c

/-- The schema-level validation mongoose runs on `save()` for one expense:
`amount` has `min: 0`, every split amount has `min: 0`, and the currency must
be in the enumerated set.  (The `required`/`maxlength` string constraints are
always met by the model.) -/
def expenseSchemaValid (e : Expense) : Bool :=
  decide (0 ≤ e.amount) && validCurrency e.currency &&
    e.splitBetween.all (fun s => decide (0 ≤ s.amount))

/-- The balance object `calculateDebts` builds for one currency (empty if the
currency has no expense). -/
def currencyBalances (g : Group) (cur : String) : Bal :=
  (alookup (balancesByCurrency g.members g.billSplit) cur).getD []

/-- The number of members of one currency's balance object whose balance has
magnitude greater than `0.01` (a `NaN` balance is neither). -/
def nonzeroBalanceCount (g : Group) (cur : String) : Nat :=
  (((currencyBalances g cur).map Prod.fst).filter (fun id =>
    jsGt (alookup (currencyBalances g cur) id) cent ||
      jsLt (alookup (currencyBalances g cur) id) (-cent))).length

/-- The sum, over the active members, of their balance in one currency as
computed by `calculateDebts` (a `NaN` or missing slot contributes `0`). -/
def activeBalanceSum (g : Group) (cur : String) : ℚ :=
  ((activeIds g.members).map (fun id => jsVal (alookup (currencyBalances g cur) id))).sum

/-! ### Concrete fixtures used by witnesses and counterexamples -/

/-- Member fixture A (group admin). -/
def mA : Member :=
  { userId := "A", username := "alice", joinedAt := 0, role := "admin", isActive := true }

/-- Member fixture B. -/
def mB : Member :=
  { userId := "B", username := "bob", joinedAt := 0, role := "member", isActive := true }

/-- Member fixture C. -/
def mC : Member :=
  { userId := "C", username := "cara", joinedAt := 0, role := "member", isActive := true }

/-- A three-member group with auto-simplification on. -/
def gABC : Group :=
  { members := [mA, mB, mC], billSplit := [], simplifyDebt := [],
    defaultCurrency := "IDR", allowMultipleCurrencies := true,
    autoSimplifyDebts := true, maxMembers := 50 }

/-- A two-member group (B and C), auto-simplification on. -/
def gBC : Group :=
  { members := [mB, mC], billSplit := [], simplifyDebt := [],
    defaultCurrency := "IDR", allowMultipleCurrencies := true,
    autoSimplifyDebts := true, maxMembers := 50 }

/-- A group whose only membership record (user A) is inactive, with no
debts. -/
def gInactiveA : Group :=
  { members := [{ mA with isActive := false }], billSplit := [], simplifyDebt := [],
    defaultCurrency := "IDR", allowMultipleCurrencies := true,
    autoSimplifyDebts := true, maxMembers := 50 }

/-- Member-removal scenario, step 1: A pays 300 IDR split equally over
A, B, C (auto-recompute emits the debts B→A 100 and C→A 100). -/
def rm1 : Group :=
  (addExpense gABC "trip" 300 "IDR" "A" "alice"
    [⟨"A", "alice", 100⟩, ⟨"B", "bob", 100⟩, ⟨"C", "cara", 100⟩]
    "other" none none 1).2

/-- Step 2: the first debt is settled. -/
def rm2 : Group := (settleDebt rm1 0 "A" 2).2

/-- Step 3: the second debt is settled; A now has no pending debt. -/
def rm3 : Group := (settleDebt rm2 1 "A" 3).2

/-- Step 4: A is removed (soft-deleted); A's expense stays in the ledger. -/
def rm4 : Group := (removeMember rm3 "A").2

/-- Step 5: B adds one more expense, which triggers a full debt
recomputation over a ledger whose first expense was paid by the now
inactive member A. -/
def rm5 : Group :=
  (addExpense rm4 "taxi" 60 "IDR" "B" "bob"
    [⟨"B", "bob", 30⟩, ⟨"C", "cara", 30⟩] "other" none none 4).2

/-- A two-member group holding one pending debt (B owes A 25 IDR), with
auto-simplification on. -/
def gDebtAB : Group :=
  { members := [mA, mB], billSplit := [],
    simplifyDebt := [{ from_ := { userId := "B", username := "bob" },
                       to_ := { userId := "A", username := "alice" },
                       amount := 25, currency := "IDR", status := "pending",
                       settledAt := none, settledBy := none }],
    defaultCurrency := "IDR", allowMultipleCurrencies := true,
    autoSimplifyDebts := true, maxMembers := 50 }

/-- `gDebtAB` after its debt is settled. -/
def gSettled : Group := (settleDebt gDebtAB 0 "B" 7).2

/-- `gSettled` after one more expense (A pays 20 IDR, split equally with
B), which re-runs the simplifier. -/
def gAfterSettle : Group :=
  (addExpense gSettled "coffee" 20 "IDR" "A" "alice"
    [⟨"A", "alice", 10⟩, ⟨"B", "bob", 10⟩] "other" none none 8).2

end PennyPal

namespace PennyPal

/-! ### Lemmas about the greedy settlement loop -/

theorem len_if_single {P : Prop} [Decidable P] (x : Debt) (l : List Debt) :
    ((if P then [x] else []) ++ l).length ≤ l.length + 1 := by
  split <;> simp

/-- One-step unfolding of `settleLoopGo` in the running case. -/
theorem settleLoopGo_succ_cons (cur : String) (f : Nat) (c d : Party)
    (cs ds : List Party) :
    settleLoopGo cur (f + 1) (c :: cs) (d :: ds) =
      (if cent < min c.amount d.amount then [roundDebt cur c d] else []) ++
      (if c.amount - min c.amount d.amount < cent then
        if d.amount - min c.amount d.amount < cent then
          settleLoopGo cur f cs ds
        else
          settleLoopGo cur f cs
            ({ d with amount := d.amount - min c.amount d.amount } :: ds)
      else
        settleLoopGo cur f
          ({ c with amount := c.amount - min c.amount d.amount } :: cs) ds) := by
  simp only [settleLoopGo, roundDebt]
  split_ifs <;> rfl

/-- Any fuel of at least `creditors.length + debtors.length` computes the
same result: the fuel cap of `settleLoopGo` never cuts the source loop
short, because every round retires at least one list head. -/
theorem settleLoopGo_fuel_irrel (cur : String) :
    ∀ (f1 f2 : Nat) (cs ds : List Party),
      cs.length + ds.length ≤ f1 → cs.length + ds.length ≤ f2 →
      settleLoopGo cur f1 cs ds = settleLoopGo cur f2 cs ds := by
  intro f1
  induction f1 with
  | zero =>
    intro f2 cs ds h1 _
    have hcs : cs = [] := List.length_eq_zero.1 (by omega)
    subst hcs
    cases f2 <;> simp [settleLoopGo]
  | succ f ih =>
    intro f2 cs ds h1 h2
    rcases cs with _ | ⟨c, cs⟩
    · cases f2 <;> simp [settleLoopGo]
    rcases ds with _ | ⟨d, ds⟩
    · cases f2 <;> simp [settleLoopGo]
    obtain ⟨f2p, rfl⟩ : ∃ f2p, f2 = f2p + 1 := by
      cases f2 with
      | zero => simp [List.length_cons] at h2
      | succ n => exact ⟨n, rfl⟩
    simp only [List.length_cons] at h1 h2
    rw [settleLoopGo_succ_cons, settleLoopGo_succ_cons]
    congr 1
    split_ifs with hc hd
    · exact ih f2p cs ds (by omega) (by omega)
    · exact ih f2p cs ({ d with amount := d.amount - min c.amount d.amount } :: ds)
        (by simp only [List.length_cons]; omega)
        (by simp only [List.length_cons]; omega)
    · exact ih f2p ({ c with amount := c.amount - min c.amount d.amount } :: cs) ds
        (by simp only [List.length_cons]; omega)
        (by simp only [List.length_cons]; omega)

/-- Each round of the greedy loop emits at most one debt and retires at least
one of the two heads, so the output has at most `creditors + debtors - 1`
entries. -/
theorem settleLoopGo_length (cur : String) :
    ∀ (fuel : Nat) (cs ds : List Party),
      (settleLoopGo cur fuel cs ds).length ≤ cs.length + ds.length - 1 := by
  intro fuel
  induction fuel with
  | zero => intro cs ds; cases cs <;> cases ds <;> simp [settleLoopGo]
  | succ f ih =>
    intro cs ds
    rcases cs with _ | ⟨c, cs⟩
    · simp [settleLoopGo]
    rcases ds with _ | ⟨d, ds⟩
    · simp [settleLoopGo]
    rw [settleLoopGo_succ_cons]
    refine le_trans (len_if_single _ _) ?_
    split_ifs with hc hd
    · have := ih cs ds
      simp only [List.length_cons]
      omega
    · have := ih cs ({ d with amount := d.amount - min c.amount d.amount } :: ds)
      simp only [List.length_cons] at this ⊢
      omega
    · have := ih ({ c with amount := c.amount - min c.amount d.amount } :: cs) ds
      simp only [List.length_cons] at this ⊢
      omega

theorem settleLoop_length (cur : String) (cs ds : List Party) :
    (settleLoop cur cs ds).length ≤ cs.length + ds.length - 1 :=
  settleLoopGo_length cur _ cs ds

theorem mem_if_single {P : Prop} [Decidable P] {x y : Debt} {l : List Debt}
    (h : y ∈ (if P then [x] else []) ++ l) : y = x ∨ y ∈ l := by
  rcases List.mem_append.1 h with h1 | h2
  · split at h1 <;> simp_all
  · exact Or.inr h2

/-- Every debt the greedy loop emits carries the currency being processed and
the status `pending`. -/
theorem settleLoopGo_mem (cur : String) :
    ∀ (fuel : Nat) (cs ds : List Party),
      ∀ d ∈ settleLoopGo cur fuel cs ds, d.currency = cur ∧ d.status = "pending" := by
  intro fuel
  induction fuel with
  | zero => intro cs ds; cases cs <;> cases ds <;> simp [settleLoopGo]
  | succ f ih =>
    intro cs ds
    rcases cs with _ | ⟨c, cs⟩
    · simp [settleLoopGo]
    rcases ds with _ | ⟨d, ds⟩
    · simp [settleLoopGo]
    intro x hx
    rw [settleLoopGo_succ_cons] at hx
    rcases mem_if_single hx with h | h
    · subst h; exact ⟨rfl, rfl⟩
    · split_ifs at h with hc hd
      · exact ih cs ds x h
      · exact ih cs _ x h
      · exact ih _ ds x h

theorem settleLoop_mem (cur : String) (cs ds : List Party) :
    ∀ d ∈ settleLoop cur cs ds, d.currency = cur ∧ d.status = "pending" :=
  settleLoopGo_mem cur _ cs ds

theorem length_insertStable (le : Party → Party → Bool) (x : Party)
    (l : List Party) : (insertStable le x l).length = l.length + 1 := by
  induction l with
  | nil => rfl
  | cons y ys ih =>
    simp only [insertStable]
    split <;> simp [ih, List.length_cons]

theorem length_sortByAmountDesc (l : List Party) :
    (sortByAmountDesc l).length = l.length := by
  suffices h : ∀ acc : List Party,
      (l.foldl (fun acc x =>
        insertStable (fun a b => decide (b.amount ≤ a.amount)) x acc) acc).length =
        acc.length + l.length by
    simpa using h []
  induction l with
  | nil => intro acc; simp
  | cons x xs ih =>
    intro acc
    simp only [List.foldl_cons, ih, length_insertStable, List.length_cons]
    omega

/-! ### Lemmas about association lists -/

theorem alookup_aset {α : Type} (b : List (String × α)) (k : String) (v : α)
    (k2 : String) :
    alookup (aset b k v) k2 = if k = k2 then some v else alookup b k2 := by
  induction b with
  | nil => by_cases h : k = k2 <;> simp [aset, alookup, h]
  | cons hd tl ih =>
    obtain ⟨k1, w⟩ := hd
    by_cases h1 : k1 = k
    · subst h1
      by_cases h2 : k1 = k2 <;> simp [aset, alookup, h2]
    · by_cases h2 : k1 = k2
      · subst h2
        simp [aset, alookup, h1, Ne.symm h1]
      · simp [aset, alookup, h1, h2, ih]

theorem keys_aset {α : Type} (b : List (String × α)) (k : String) (v : α) :
    (aset b k v).map Prod.fst =
      if k ∈ b.map Prod.fst then b.map Prod.fst else b.map Prod.fst ++ [k] := by
  induction b with
  | nil => simp [aset]
  | cons hd tl ih =>
    obtain ⟨k1, w⟩ := hd
    by_cases h1 : k1 = k
    · subst h1; simp [aset]
    · by_cases h2 : k ∈ tl.map Prod.fst <;>
        simp [aset, h1, Ne.symm h1, h2, ih]

theorem nodup_keys_aset {α : Type} {b : List (String × α)} (k : String) (v : α)
    (h : (b.map Prod.fst).Nodup) : ((aset b k v).map Prod.fst).Nodup := by
  rw [keys_aset]
  split
  · exact h
  · simpa [List.Nodup] using List.Nodup.append h (List.nodup_singleton k)
      (by simpa using fun hk => by simp_all)

theorem nodup_keys_balances (ms : List Member) (bills : List Expense) :
    ((balancesByCurrency ms bills).map Prod.fst).Nodup := by
  suffices h : ∀ acc : List (String × Bal), (acc.map Prod.fst).Nodup →
      ((bills.foldl (applyExpense ms) acc).map Prod.fst).Nodup by
    exact h [] (by simp)
  induction bills with
  | nil => intro acc h; simpa using h
  | cons e rest ih =>
    intro acc h
    simp only [List.foldl_cons]
    exact ih _ (nodup_keys_aset _ _ h)

/-! ### Per-currency counting -/

theorem length_filter_or_disjoint {α : Type} (l : List α) (p q : α → Bool)
    (h : ∀ x ∈ l, ¬(p x = true ∧ q x = true)) :
    (l.filter (fun x => p x || q x)).length =
      (l.filter p).length + (l.filter q).length := by
  induction l with
  | nil => simp
  | cons x rest ih =>
    have hx := h x (by simp)
    have hr := ih (fun y hy => h y (by simp [hy]))
    by_cases hp : p x = true <;> by_cases hq : q x = true <;>
      simp_all [List.filter_cons] <;> omega

theorem mem_flatten_keyed {ms : List Member} {l : List (String × Bal)} {d : Debt}
    (h : d ∈ (l.map (fun p => debtsFor ms p.1 p.2)).flatten) :
    d.currency ∈ l.map Prod.fst := by
  induction l with
  | nil => simp_all
  | cons hd tl ih =>
    simp only [List.map_cons, List.flatten_cons, List.mem_append] at h
    rcases h with h | h
    · have := settleLoop_mem hd.1 _ _ d h
      simp [this.1]
    · simp [ih h]

/-- With distinct currency keys, the debts of one currency in the
concatenated output are exactly the debts built from that currency's balance
object. -/
theorem filter_flatten_keyed (ms : List Member) (cur : String)
    (l : List (String × Bal)) (hnd : (l.map Prod.fst).Nodup) :
    (((l.map (fun p => debtsFor ms p.1 p.2)).flatten.filter
        (fun d => d.currency == cur)).length =
      match alookup l cur with
      | some bal => (debtsFor ms cur bal).length
      | none => 0) := by
  induction l with
  | nil => simp [alookup]
  | cons hd tl ih =>
    obtain ⟨k, bal⟩ := hd
    simp only [List.map_cons, List.nodup_cons] at hnd
    simp only [List.map_cons, List.flatten_cons, List.filter_append,
      List.length_append]
    by_cases hk : k = cur
    · subst hk
      have h1 : (debtsFor ms k bal).filter (fun d => d.currency == k) =
          debtsFor ms k bal := by
        apply List.filter_eq_self.2
        intro d hd
        simpa using (settleLoop_mem k _ _ d hd).1
      have h2 : ((tl.map (fun p => debtsFor ms p.1 p.2)).flatten.filter
          (fun d => d.currency == k)).length = 0 := by
        rw [List.length_eq_zero]
        apply List.filter_eq_nil_iff.2
        intro d hd
        have := mem_flatten_keyed hd
        simp only [beq_iff_eq]
        intro hcur
        exact hnd.1 (hcur ▸ this)
      rw [h1, h2]
      simp [alookup]
    · have h1 : (debtsFor ms k bal).filter (fun d => d.currency == cur) = [] := by
        apply List.filter_eq_nil_iff.2
        intro d hd
        have := (settleLoop_mem k _ _ d hd).1
        simp [this, hk]
      rw [h1]
      simp only [List.length_nil, Nat.zero_add]
      rw [ih hnd.2]
      simp [alookup, hk]

theorem jsGt_jsLt_disjoint (v : Option (Option ℚ)) :
    ¬(jsGt v cent = true ∧ jsLt v (-cent) = true) := by
  rintro ⟨h1, h2⟩
  rcases v with _ | (_ | q) <;> simp [jsGt, jsLt] at h1 h2
  have : (0:ℚ) < cent := by norm_num [cent]
  linarith

/-- C1.  For every currency, `calculateDebts` emits at most
(number of members with balance magnitude above the `0.01` tolerance) − 1
debts for that currency (natural-number subtraction); in particular, when no
balance exceeds the tolerance the count is `0`, i.e. the emitted debt list
for that currency is empty. -/
theorem claim1_settlement_minimality (g : Group) (cur : String) :
    (((calculateDebts g).simplifyDebt).filter (fun d => d.currency == cur)).length ≤
      nonzeroBalanceCount g cur - 1 := by
  have hnd := nodup_keys_balances g.members g.billSplit
  have hkey := filter_flatten_keyed g.members cur
    (balancesByCurrency g.members g.billSplit) hnd
  have hcd : (calculateDebts g).simplifyDebt =
      ((balancesByCurrency g.members g.billSplit).map
        (fun p => debtsFor g.members p.1 p.2)).flatten := rfl
  rw [hcd, hkey]
  rcases halk : alookup (balancesByCurrency g.members g.billSplit) cur with _ | bal
  · simp
  show (debtsFor g.members cur bal).length ≤ nonzeroBalanceCount g cur - 1
  have hbal : currencyBalances g cur = bal := by simp [currencyBalances, halk]
  have h1 : (debtsFor g.members cur bal).length ≤
      (creditorsOf g.members bal).length + (debtorsOf g.members bal).length - 1 := by
    unfold debtsFor
    refine le_trans (settleLoop_length _ _ _) ?_
    rw [length_sortByAmountDesc, length_sortByAmountDesc]
  have h2 : nonzeroBalanceCount g cur =
      (creditorsOf g.members bal).length + (debtorsOf g.members bal).length := by
    unfold nonzeroBalanceCount creditorsOf debtorsOf
    rw [hbal]
    rw [List.length_map, List.length_map]
    exact length_filter_or_disjoint _ _ _
      (fun x _ => jsGt_jsLt_disjoint (alookup bal x))
  rw [h2]
  exact h1

end PennyPal

namespace PennyPal

/-! ### The per-currency balance sums -/

theorem sum_jsVal_aset (ids : List String) (hnd : ids.Nodup) (bal : Bal)
    (k : String) (hk : k ∈ ids) (v : Option ℚ) :
    (ids.map (fun id => jsVal (alookup (aset bal k v) id))).sum =
      (ids.map (fun id => jsVal (alookup bal id))).sum
        + jsVal (some v) - jsVal (alookup bal k) := by
  induction ids with
  | nil => simp at hk
  | cons a rest ih =>
    rcases List.nodup_cons.1 hnd with ⟨hna, hndr⟩
    by_cases hak : a = k
    · subst hak
      have hrest : rest.map (fun id => jsVal (alookup (aset bal a v) id)) =
          rest.map (fun id => jsVal (alookup bal id)) := by
        apply List.map_congr_left
        intro id hid
        have : a ≠ id := fun h => hna (h ▸ hid)
        rw [alookup_aset, if_neg this]
      rw [List.map_cons, List.map_cons, List.sum_cons, List.sum_cons, hrest,
        alookup_aset, if_pos rfl]
      ring
    · have hk2 : k ∈ rest := by
        rcases List.mem_cons.1 hk with h | h
        · exact absurd h.symm hak
        · exact h
      have hhead : jsVal (alookup (aset bal k v) a) = jsVal (alookup bal a) := by
        rw [alookup_aset, if_neg (fun h => hak h.symm)]
      rw [List.map_cons, List.map_cons, List.sum_cons, List.sum_cons, hhead,
        ih hndr hk2]
      ring

/-- The `if (!balances[id]) balances[id] = 0` pass never changes the numeric
reading of a slot: it only turns `undefined`/`NaN`/`0` (all read as `0`)
into a stored `0`. -/
theorem initMembers_jsVal (ids : List String) (bal : Bal) (id : String) :
    jsVal (alookup (initMembers bal ids) id) = jsVal (alookup bal id) := by
  induction ids generalizing bal with
  | nil => rfl
  | cons a rest ih =>
    have hstep : initMembers bal (a :: rest) =
        initMembers (if jsFalsy (alookup bal a) then aset bal a (some 0) else bal)
          rest := by
      simp [initMembers, List.foldl_cons]
    rw [hstep, ih]
    split
    · rename_i hfal
      rw [alookup_aset]
      by_cases hai : a = id
      · subst hai
        rcases hv : alookup bal a with _ | (_ | q) <;>
          simp_all [jsFalsy, jsVal]
      · rw [if_neg hai]
    · rfl

theorem initMembers_preserves_num (ids : List String) (bal : Bal) (id : String)
    (h : ∃ q : ℚ, alookup bal id = some (some q)) :
    ∃ q : ℚ, alookup (initMembers bal ids) id = some (some q) := by
  induction ids generalizing bal with
  | nil => exact h
  | cons a rest ih =>
    have hstep : initMembers bal (a :: rest) =
        initMembers (if jsFalsy (alookup bal a) then aset bal a (some 0) else bal)
          rest := by
      simp [initMembers, List.foldl_cons]
    rw [hstep]
    apply ih
    split
    · rw [alookup_aset]
      by_cases hai : a = id
      · exact ⟨0, by rw [if_pos hai]⟩
      · rw [if_neg hai]; exact h
    · exact h

/-- After the initialisation pass every active member id holds a real
number (never `undefined`, never `NaN`). -/
theorem initMembers_num (ids : List String) (bal : Bal) (id : String)
    (h : id ∈ ids) :
    ∃ q : ℚ, alookup (initMembers bal ids) id = some (some q) := by
  induction ids generalizing bal with
  | nil => simp at h
  | cons a rest ih =>
    have hstep : initMembers bal (a :: rest) =
        initMembers (if jsFalsy (alookup bal a) then aset bal a (some 0) else bal)
          rest := by
      simp [initMembers, List.foldl_cons]
    rw [hstep]
    by_cases hr : id ∈ rest
    · exact ih _ hr
    · have hai : a = id := by
        rcases List.mem_cons.1 h with h1 | h1
        · exact h1.symm
        · exact absurd h1 hr
      subst hai
      apply initMembers_preserves_num
      split
      · exact ⟨0, by rw [alookup_aset, if_pos rfl]⟩
      · rename_i hfal
        rcases hv : alookup bal a with _ | (_ | q) <;> simp_all [jsFalsy]

theorem foldl_add_amount (l : List Split) (q : ℚ) :
    l.foldl (fun a s => a + s.amount) q = q + (l.map (fun s => s.amount)).sum := by
  induction l generalizing q with
  | nil => simp
  | cons s rest ih => simp [List.foldl_cons, ih, add_assoc]

theorem splitTotal_eq (l : List Split) :
    splitTotal l = (l.map (fun s => s.amount)).sum := by
  simpa using foldl_add_amount l 0

theorem splitTotal_cons (s : Split) (rest : List Split) :
    splitTotal (s :: rest) = s.amount + splitTotal rest := by
  simp [splitTotal_eq]

theorem bumpSub_eq (bal : Bal) (k : String) (x : ℚ) :
    bumpSub bal k x = bumpAdd bal k (-x) := rfl

theorem sum_bumpAdd (ids : List String) (hnd : ids.Nodup) (bal : Bal)
    (k : String) (hk : k ∈ ids) (x : ℚ)
    (hq : ∃ q : ℚ, alookup bal k = some (some q)) :
    (ids.map (fun id => jsVal (alookup (bumpAdd bal k x) id))).sum =
      (ids.map (fun id => jsVal (alookup bal id))).sum + x := by
  obtain ⟨q, hq⟩ := hq
  unfold bumpAdd
  rw [sum_jsVal_aset ids hnd bal k hk, hq]
  simp [jsAdd, jsVal]
  ring

theorem num_bumpAdd (bal : Bal) (k : String) (x : ℚ) (id : String)
    (h : ∃ q : ℚ, alookup bal id = some (some q))
    (hk : ∃ q : ℚ, alookup bal k = some (some q)) :
    ∃ q : ℚ, alookup (bumpAdd bal k x) id = some (some q) := by
  obtain ⟨q, hq⟩ := h
  obtain ⟨qk, hqk⟩ := hk
  unfold bumpAdd
  rw [alookup_aset]
  by_cases hki : k = id
  · subst hki
    exact ⟨qk + x, by rw [if_pos rfl, hqk]; simp [jsAdd]⟩
  · rw [if_neg hki]
    exact ⟨q, hq⟩

theorem sum_splitsFold (ids : List String) (hnd : ids.Nodup)
    (splits : List Split) :
    ∀ bal : Bal,
    (∀ id ∈ ids, ∃ q : ℚ, alookup bal id = some (some q)) →
    (∀ s ∈ splits, s.userId ∈ ids) →
    ((ids.map (fun id => jsVal (alookup
        (splits.foldl (fun b s => bumpSub b s.userId s.amount) bal) id))).sum =
      (ids.map (fun id => jsVal (alookup bal id))).sum - splitTotal splits)
    ∧ (∀ id ∈ ids, ∃ q : ℚ, alookup
        (splits.foldl (fun b s => bumpSub b s.userId s.amount) bal) id =
          some (some q)) := by
  induction splits with
  | nil =>
    intro bal hgood _
    refine ⟨?_, hgood⟩
    simp [splitTotal]
  | cons s rest ih =>
    intro bal hgood hmem
    have hk : s.userId ∈ ids := hmem s (List.mem_cons_self s rest)
    have hgood2 : ∀ id ∈ ids, ∃ q : ℚ,
        alookup (bumpSub bal s.userId s.amount) id = some (some q) := by
      intro id hid
      rw [bumpSub_eq]
      exact num_bumpAdd _ _ _ _ (hgood id hid) (hgood _ hk)
    obtain ⟨hsum, hg⟩ := ih (bumpSub bal s.userId s.amount) hgood2
      (fun t ht => hmem t (List.mem_cons_of_mem s ht))
    rw [List.foldl_cons]
    refine ⟨?_, hg⟩
    rw [hsum]
    have hb : (ids.map (fun id => jsVal (alookup
        (bumpSub bal s.userId s.amount) id))).sum =
        (ids.map (fun id => jsVal (alookup bal id))).sum + (-s.amount) := by
      rw [bumpSub_eq]
      exact sum_bumpAdd ids hnd bal s.userId hk (-s.amount) (hgood _ hk)
    rw [hb, splitTotal_cons]
    ring

theorem balancesByCurrency_append (ms : List Member) (l : List Expense)
    (e : Expense) :
    balancesByCurrency ms (l ++ [e]) =
      applyExpense ms (balancesByCurrency ms l) e := by
  simp [balancesByCurrency, List.foldl_append]

/-- When every expense has an active payer and active split participants,
the per-currency balance object reads, over the active members, exactly the
per-expense drifts `amount - splitTotal`, and no active member's slot is
`NaN`. -/
theorem balances_sum (ms : List Member) (hnd : (activeIds ms).Nodup)
    (bills : List Expense)
    (hval : ∀ e ∈ bills, e.paidBy ∈ activeIds ms ∧
      ∀ s ∈ e.splitBetween, s.userId ∈ activeIds ms) :
    ∀ cur : String,
      (((activeIds ms).map (fun id =>
          jsVal (alookup ((alookup (balancesByCurrency ms bills) cur).getD []) id))).sum =
        ((bills.filter (fun e => e.currency == cur)).map
          (fun e => e.amount - splitTotal e.splitBetween)).sum) ∧
      (∀ bal, alookup (balancesByCurrency ms bills) cur = some bal →
        ∀ id ∈ activeIds ms, ∃ q : ℚ, alookup bal id = some (some q)) := by
  induction bills using List.reverseRecOn with
  | nil =>
    intro cur
    constructor
    · simp [balancesByCurrency, alookup, jsVal]
    · intro bal hbal
      simp [balancesByCurrency, alookup] at hbal
  | append_singleton l e ih =>
    have hvl : ∀ e2 ∈ l, e2.paidBy ∈ activeIds ms ∧
        ∀ s ∈ e2.splitBetween, s.userId ∈ activeIds ms := by
      intro e2 he2
      exact hval e2 (List.mem_append_left _ he2)
    have hve : e.paidBy ∈ activeIds ms ∧
        ∀ s ∈ e.splitBetween, s.userId ∈ activeIds ms := by
      exact hval e (List.mem_append_right _ (List.mem_singleton_self e))
    intro cur
    rw [balancesByCurrency_append]
    by_cases hcur : e.currency = cur
    · subst hcur
      set acc := balancesByCurrency ms l with hacc
      have happ : applyExpense ms acc e =
          aset acc e.currency
            ((e.splitBetween.foldl (fun b s => bumpSub b s.userId s.amount)
              (bumpAdd (initMembers ((alookup acc e.currency).getD [])
                (activeIds ms)) e.paidBy e.amount))) := rfl
      set bal0 := (alookup acc e.currency).getD [] with hbal0
      set bal1 := initMembers bal0 (activeIds ms) with hbal1
      set bal2 := bumpAdd bal1 e.paidBy e.amount with hbal2
      set bal3 := e.splitBetween.foldl (fun b s => bumpSub b s.userId s.amount)
        bal2 with hbal3
      have hlook : alookup (aset acc e.currency bal3) e.currency = some bal3 := by
        rw [alookup_aset, if_pos rfl]
      have hg1 : ∀ id ∈ activeIds ms, ∃ q : ℚ, alookup bal1 id = some (some q) := by
        intro id hid
        exact initMembers_num _ _ _ hid
      have hs1 : ((activeIds ms).map (fun id => jsVal (alookup bal1 id))).sum =
          ((activeIds ms).map (fun id => jsVal (alookup bal0 id))).sum := by
        apply congrArg
        apply List.map_congr_left
        intro id _
        exact initMembers_jsVal _ _ _
      have hg2 : ∀ id ∈ activeIds ms, ∃ q : ℚ, alookup bal2 id = some (some q) := by
        intro id hid
        exact num_bumpAdd _ _ _ _ (hg1 id hid) (hg1 _ hve.1)
      have hs2 : ((activeIds ms).map (fun id => jsVal (alookup bal2 id))).sum =
          ((activeIds ms).map (fun id => jsVal (alookup bal1 id))).sum + e.amount :=
        sum_bumpAdd _ hnd _ _ hve.1 _ (hg1 _ hve.1)
      obtain ⟨hs3, hg3⟩ := sum_splitsFold (activeIds ms) hnd e.splitBetween bal2
        hg2 hve.2
      constructor
      · rw [happ, hlook]
        show ((activeIds ms).map (fun id => jsVal (alookup bal3 id))).sum = _
        rw [hs3, hs2, hs1]
        have hih := (ih hvl e.currency).1
        rw [← hbal0] at hih
        rw [hih]
        rw [List.filter_append, List.map_append, List.sum_append]
        simp
        ring
      · intro bal hbal id hid
        rw [happ, hlook] at hbal
        injection hbal with hbal
        subst hbal
        exact hg3 id hid
    · have hlook : alookup (applyExpense ms (balancesByCurrency ms l) e) cur =
          alookup (balancesByCurrency ms l) cur := by
        show alookup (aset _ e.currency _) cur = _
        rw [alookup_aset, if_neg hcur]
      constructor
      · rw [hlook]
        have hih := (ih hvl cur).1
        rw [hih]
        rw [List.filter_append]
        have he : [e].filter (fun e2 => e2.currency == cur) = [] := by
          simp [hcur]
        rw [he]
        simp
      · intro bal hbal
        rw [hlook] at hbal
        exact (ih hvl cur).2 bal hbal

theorem abs_sum_le (l : List ℚ) (c : ℚ) (h : ∀ x ∈ l, |x| ≤ c) :
    |l.sum| ≤ c * l.length := by
  induction l with
  | nil => simp
  | cons x rest ih =>
    have hx := h x (by simp)
    have hrest := ih fun y hy => h y (by simp [hy])
    calc |(x :: rest).sum| = |x + rest.sum| := by simp
    _ ≤ |x| + |rest.sum| := abs_add _ _
    _ ≤ c + c * rest.length := by linarith
    _ = c * ((x :: rest).length : ℚ) := by push_cast [List.length_cons]; ring

theorem activeIds_nodup (ms : List Member)
    (h : (ms.map (fun m => m.userId)).Nodup) : (activeIds ms).Nodup := by
  have hsub : ((ms.filter (fun m => m.isActive)).map (fun m => m.userId)).Sublist
      (ms.map (fun m => m.userId)) :=
    (List.filter_sublist ms).map (fun m => m.userId)
  exact h.sublist hsub

end PennyPal

namespace PennyPal

/-- C3 (amended).  Balance invariant: for a group whose membership records
have pairwise distinct user ids and whose every ledger expense passes the
`addExpense` validation checks AND has an active member as payer, the sum
over the active members of the balances `calculateDebts` computes is within
`0.01 · (number of expenses in that currency)` of zero, in every currency —
and this holds at all times, i.e. for every such reachable ledger. -/
theorem claim3_balance_bound (g : Group) (cur : String)
    (hnd : (g.members.map (fun m => m.userId)).Nodup)
    (hval : ∀ e ∈ g.billSplit, e.paidBy ∈ activeIds g.members ∧
      (∀ s ∈ e.splitBetween, s.userId ∈ activeIds g.members) ∧
      |splitTotal e.splitBetween - e.amount| ≤ cent) :
    |activeBalanceSum g cur| ≤
      cent * ((g.billSplit.filter (fun e => e.currency == cur)).length : ℚ) := by
  have hnd2 : (activeIds g.members).Nodup := activeIds_nodup _ hnd
  have h1 := (balances_sum g.members hnd2 g.billSplit
    (fun e he => ⟨(hval e he).1, (hval e he).2.1⟩) cur).1
  have heq : activeBalanceSum g cur =
      ((g.billSplit.filter (fun e => e.currency == cur)).map
        (fun e => e.amount - splitTotal e.splitBetween)).sum := h1
  rw [heq]
  have hb := abs_sum_le
    ((g.billSplit.filter (fun e => e.currency == cur)).map
      (fun e => e.amount - splitTotal e.splitBetween)) cent ?_
  · rw [List.length_map] at hb
    exact hb
  · intro x hx
    obtain ⟨e, he, rfl⟩ := List.mem_map.1 hx
    have he2 : e ∈ g.billSplit := List.mem_of_mem_filter he
    have := (hval e he2).2.2
    rw [abs_sub_comm]
    exact this

/-- C3 (counterexample to the claim as stated).  A payer who is not a group
member is accepted by every `addExpense` validation check (the payer is
never validated, cf. C10), and afterwards the members' balances sum to
`-100`, not ≈ 0: the full expense amount is debited from the members but
credited to no member. -/
theorem claim3_counterexample :
    (addExpense gBC "lunch" 100 "IDR" "A" "alice"
      [⟨"B", "bob", 50⟩, ⟨"C", "cara", 50⟩] "other" none none 1).1 = none ∧
    activeBalanceSum (addExpense gBC "lunch" 100 "IDR" "A" "alice"
      [⟨"B", "bob", 50⟩, ⟨"C", "cara", 50⟩] "other" none none 1).2 "IDR"
      = -100 := by
  constructor <;> with_unfolding_all decide

theorem claim3_witness :
    |activeBalanceSum rm1 "IDR"| ≤
      cent * ((rm1.billSplit.filter (fun e => e.currency == "IDR")).length : ℚ) :=
  claim3_balance_bound rm1 "IDR" (by with_unfolding_all decide)
    (by with_unfolding_all decide)

end PennyPal

namespace PennyPal

/-! ### Recompute discards and rebuilds -/

theorem calculateDebts_members (g : Group) :
    (calculateDebts g).members = g.members := rfl

theorem calculateDebts_billSplit (g : Group) :
    (calculateDebts g).billSplit = g.billSplit := rfl

/-- Every debt `calculateDebts` emits has status `pending`. -/
theorem calculateDebts_pending (g : Group) :
    ∀ d ∈ (calculateDebts g).simplifyDebt, d.status = "pending" := by
  intro d hd
  have hm : d ∈ ((balancesByCurrency g.members g.billSplit).map
      (fun p => debtsFor g.members p.1 p.2)).flatten := hd
  rw [List.mem_flatten] at hm
  obtain ⟨l, hl, hdl⟩ := hm
  obtain ⟨p, _, rfl⟩ := List.mem_map.1 hl
  exact (settleLoop_mem p.1 _ _ d hdl).2

theorem settleDebt_auto {g g1 : Group} {idx : Nat} {u : String} {t : Nat}
    (h : settleDebt g idx u t = (none, g1)) :
    g1.autoSimplifyDebts = g.autoSimplifyDebts := by
  rcases hget : g.simplifyDebt.get? idx with _ | debt <;>
    simp only [settleDebt, hget] at h
  · simp at h
  · split_ifs at h with hst
    · simp at h
    · rw [Prod.mk.injEq] at h
      rw [← h.2]

/-- A successful `addExpense` appends exactly the built expense and, when
`autoSimplifyDebts` is set, ends in a full recompute. -/
theorem addExpense_ok {g g2 : Group} {descr : String} {amount : ℚ}
    {currency paidBy pu : String} {sb : List Split} {cat : String}
    {r n : Option String} {now : Nat}
    (h : addExpense g descr amount currency paidBy pu sb cat r n now =
      (none, g2)) :
    g2 = (if g.autoSimplifyDebts then
      calculateDebts { g with billSplit := g.billSplit ++
        [mkExpense descr amount currency paidBy pu sb cat r n now] }
    else { g with billSplit := g.billSplit ++
        [mkExpense descr amount currency paidBy pu sb cat r n now] }) := by
  simp only [addExpense] at h
  split_ifs at h ⊢ <;> rw [Prod.mk.injEq] at h <;>
    first
      | exact absurd h.1 (Option.some_ne_none _)
      | exact h.2.symm

theorem addExpense_ok_billSplit {g g2 : Group} {descr : String} {amount : ℚ}
    {currency paidBy pu : String} {sb : List Split} {cat : String}
    {r n : Option String} {now : Nat}
    (h : addExpense g descr amount currency paidBy pu sb cat r n now =
      (none, g2)) :
    g2.billSplit = g.billSplit ++
      [mkExpense descr amount currency paidBy pu sb cat r n now] := by
  rw [addExpense_ok h]
  split <;> rfl

/-- C4.  The debt recomputation first discards the whole existing debt list
— whatever statuses (settled, disputed) it held — and rebuilds only from
members and expenses: (1) its output does not depend on the prior
`simplifyDebt` at all; (2) every rebuilt debt is `pending`; (3) hence
settling a debt and then adding one more expense (with `autoSimplifyDebts`
enabled) leaves a group in which no debt carries the status `settled` — the
settlement record is erased. -/
theorem claim4_recompute_discards :
    (∀ (g : Group) (ds : List Debt),
      (calculateDebts { g with simplifyDebt := ds }).simplifyDebt =
        (calculateDebts g).simplifyDebt) ∧
    (∀ g : Group, ∀ d ∈ (calculateDebts g).simplifyDebt, d.status = "pending") ∧
    (∀ (g g1 g2 : Group) (idx : Nat) (u : String) (t : Nat) (descr : String)
        (amount : ℚ) (currency paidBy pu : String) (sb : List Split)
        (cat : String) (r n : Option String) (now : Nat),
      g.autoSimplifyDebts = true →
      settleDebt g idx u t = (none, g1) →
      addExpense g1 descr amount currency paidBy pu sb cat r n now = (none, g2) →
      ∀ d ∈ g2.simplifyDebt, d.status = "pending") := by
  refine ⟨fun g ds => rfl, calculateDebts_pending, ?_⟩
  intro g g1 g2 idx u t descr amount currency paidBy pu sb cat r n now
    hauto hsettle hadd
  have hauto1 : g1.autoSimplifyDebts = true := (settleDebt_auto hsettle).trans hauto
  have hg2 := addExpense_ok hadd
  rw [hauto1] at hg2
  simp only [if_pos] at hg2
  subst hg2
  exact calculateDebts_pending _

/-- Witness for C4 at a concrete input: a pending debt is settled, one more
expense is added, and the resulting group holds no settled debt. -/
theorem claim4_witness :
    ∀ d ∈ gAfterSettle.simplifyDebt, d.status = "pending" := by
  refine claim4_recompute_discards.2.2 gDebtAB gSettled gAfterSettle 0 "B" 7
    "coffee" 20 "IDR" "A" "alice" [⟨"A", "alice", 10⟩, ⟨"B", "bob", 10⟩]
    "other" none none 8 (by with_unfolding_all decide) ?_ ?_
  · show settleDebt gDebtAB 0 "B" 7 = (none, (settleDebt gDebtAB 0 "B" 7).2)
    with_unfolding_all decide
  · show addExpense gSettled "coffee" 20 "IDR" "A" "alice"
      [⟨"A", "alice", 10⟩, ⟨"B", "bob", 10⟩] "other" none none 8 =
      (none, (addExpense gSettled "coffee" 20 "IDR" "A" "alice"
        [⟨"A", "alice", 10⟩, ⟨"B", "bob", 10⟩] "other" none none 8).2)
    with_unfolding_all rfl

/-- C5.  Recomputing twice in a row with unchanged expenses and membership
yields literally the same debt list (hence the same multiset of
(from, to, amount) triples in every currency): `calculateDebts` reads only
`members` and `billSplit`, which it never modifies. -/
theorem claim5_idempotent (g : Group) :
    (calculateDebts (calculateDebts g)).simplifyDebt =
      (calculateDebts g).simplifyDebt := rfl

end PennyPal

namespace PennyPal

/-! ### addExpense validation -/

/-- C2.  For a call that passes the currency and split-membership checks,
`addExpense` rejects with `SplitMismatch` exactly when
`|sum(splitBetween.amount) - amount|` exceeds the `0.01` tolerance; any
rejection leaves the group unchanged (nothing is appended to the ledger);
and at the spec's example inputs, a split summing to `299.99` against an
amount of `300` is accepted while a split summing to `295` is rejected. -/
theorem claim2_split_mismatch (g : Group) (descr : String) (amount : ℚ)
    (currency paidBy pu : String) (sb : List Split) (cat : String)
    (r n : Option String) (now : Nat)
    (hcur : (!g.allowMultipleCurrencies && currency != g.defaultCurrency) = false)
    (hmem : ∀ s ∈ sb, (memberIdsActive g).contains s.userId) :
    ((addExpense g descr amount currency paidBy pu sb cat r n now).1 =
        some GroupError.SplitMismatch ↔ cent < |splitTotal sb - amount|) ∧
    (∀ e, (addExpense g descr amount currency paidBy pu sb cat r n now).1 = some e →
      (addExpense g descr amount currency paidBy pu sb cat r n now).2 = g) ∧
    (addExpense gABC "dinner" 300 "IDR" "A" "alice"
      [⟨"A", "alice", 299.99⟩] "other" none none 0).1 = none ∧
    (addExpense gABC "dinner" 300 "IDR" "A" "alice"
      [⟨"A", "alice", 295⟩] "other" none none 0).1 =
        some GroupError.SplitMismatch := by
  have hinv : sb.filter (fun s => !((memberIdsActive g).contains s.userId)) = [] :=
    List.filter_eq_nil_iff.2 (fun s hs => by simpa using hmem s hs)
  have hred : addExpense g descr amount currency paidBy pu sb cat r n now =
      (if cent < |splitTotal sb - amount| then (some GroupError.SplitMismatch, g)
       else (none, if g.autoSimplifyDebts then
          calculateDebts { g with billSplit := g.billSplit ++
            [mkExpense descr amount currency paidBy pu sb cat r n now] }
        else { g with billSplit := g.billSplit ++
            [mkExpense descr amount currency paidBy pu sb cat r n now] })) := by
    simp only [addExpense, hinv]
    rw [if_neg (by simp [hcur]), if_neg (by simp)]
  refine ⟨?_, ?_, ?_, ?_⟩
  · rw [hred]
    split_ifs with hs <;> simp [hs]
  · intro e he
    rw [hred] at he ⊢
    split_ifs at he ⊢ with hs
    rfl
  · with_unfolding_all decide
  · with_unfolding_all decide

theorem claim2_witness :
    (addExpense gBC "water" 10 "IDR" "B" "bob" [⟨"B", "bob", 10⟩]
      "other" none none 2).1 ≠ some GroupError.SplitMismatch := by
  have h := claim2_split_mismatch gBC "water" 10 "IDR" "B" "bob"
    [⟨"B", "bob", 10⟩] "other" none none 2
    (by with_unfolding_all decide) (by with_unfolding_all decide)
  intro hc
  have h2 := h.1.1 hc
  norm_num [splitTotal, cent] at h2

/-- C9 (counterexample to the claim as stated).  `addExpense` has no
positivity check at all: an expense of amount `0` with an empty split list
passes every check, is appended to the ledger, and even satisfies the
schema-level constraints (`min: 0`), so it is persisted. -/
theorem claim9_counterexample :
    (addExpense gBC "zero" 0 "IDR" "B" "bob" [] "other" none none 1).1 = none ∧
    (addExpense gBC "zero" 0 "IDR" "B" "bob" [] "other" none none 1).2.billSplit.length
      = gBC.billSplit.length + 1 ∧
    expenseSchemaValid (mkExpense "zero" 0 "IDR" "B" "bob" [] "other" none none 1)
      = true := by
  refine ⟨?_, ?_, ?_⟩ <;> with_unfolding_all decide

/-- C9 (amended).  `addExpense` itself never rejects on the sign of the
amount: an amount-`0` expense can be accepted and appended (see the
counterexample).  What does hold is that a strictly negative amount, when
the method nevertheless accepts the call, produces a ledger that fails the
schema's `min: 0` validation, so the mongoose `save()` rejects it and a
negative-amount expense is never persisted. -/
theorem claim9_negative_never_persisted (g : Group) (descr : String)
    (amount : ℚ) (currency paidBy pu : String) (sb : List Split)
    (cat : String) (r n : Option String) (now : Nat) (g2 : Group)
    (hneg : amount < 0)
    (hok : addExpense g descr amount currency paidBy pu sb cat r n now =
      (none, g2)) :
    (g2.billSplit.all expenseSchemaValid) = false := by
  have hb := addExpense_ok_billSplit hok
  have h0 : decide ((0:ℚ) ≤ amount) = false := decide_eq_false (not_le.2 hneg)
  have hbad : expenseSchemaValid
      (mkExpense descr amount currency paidBy pu sb cat r n now) = false := by
    simp [expenseSchemaValid, mkExpense, h0]
  rw [hb, List.all_append]
  simp [hbad]

theorem claim9_witness :
    ((addExpense gBC "tiny" (-1/200) "IDR" "B" "bob" [] "other" none none 3).2.billSplit.all
      expenseSchemaValid) = false := by
  refine claim9_negative_never_persisted gBC "tiny" (-1/200) "IDR" "B" "bob"
    [] "other" none none 3 _ (by norm_num) ?_
  show addExpense gBC "tiny" (-1/200) "IDR" "B" "bob" [] "other" none none 3 =
    (none, (addExpense gBC "tiny" (-1/200) "IDR" "B" "bob" [] "other" none none 3).2)
  with_unfolding_all rfl

/-- C10.  `addExpense` validates only the `splitBetween` participants
against active membership; the payer is never checked.  Any call whose
currency, split-membership and split-sum checks pass succeeds — including
when no membership record at all carries the payer's user id — and appends
an expense whose `paidBy` is that outside payer. -/
theorem claim10_payer_unchecked (g : Group) (descr : String) (amount : ℚ)
    (currency paidBy pu : String) (sb : List Split) (cat : String)
    (r n : Option String) (now : Nat)
    (hcur : (!g.allowMultipleCurrencies && currency != g.defaultCurrency) = false)
    (hmem : ∀ s ∈ sb, (memberIdsActive g).contains s.userId)
    (hsum : ¬ cent < |splitTotal sb - amount|)
    (hpayer : ∀ m ∈ g.members, m.userId ≠ paidBy) :
    (addExpense g descr amount currency paidBy pu sb cat r n now).1 = none ∧
    mkExpense descr amount currency paidBy pu sb cat r n now ∈
      (addExpense g descr amount currency paidBy pu sb cat r n now).2.billSplit := by
  have hinv : sb.filter (fun s => !((memberIdsActive g).contains s.userId)) = [] :=
    List.filter_eq_nil_iff.2 (fun s hs => by simpa using hmem s hs)
  simp only [addExpense, hinv]
  rw [if_neg (by simp [hcur]), if_neg (by simp), if_neg hsum]
  refine ⟨rfl, ?_⟩
  show mkExpense descr amount currency paidBy pu sb cat r n now ∈
    (if g.autoSimplifyDebts then calculateDebts _ else _).billSplit
  split <;>
    exact List.mem_append_right _ (List.mem_singleton_self _)

theorem claim10_witness :
    (addExpense gBC "ghost" 40 "IDR" "Z" "zed"
      [⟨"B", "bob", 20⟩, ⟨"C", "cara", 20⟩] "other" none none 6).1 = none ∧
    mkExpense "ghost" 40 "IDR" "Z" "zed"
      [⟨"B", "bob", 20⟩, ⟨"C", "cara", 20⟩] "other" none none 6 ∈
      (addExpense gBC "ghost" 40 "IDR" "Z" "zed"
        [⟨"B", "bob", 20⟩, ⟨"C", "cara", 20⟩] "other" none none 6).2.billSplit :=
  claim10_payer_unchecked gBC "ghost" 40 "IDR" "Z" "zed"
    [⟨"B", "bob", 20⟩, ⟨"C", "cara", 20⟩] "other" none none 6
    (by with_unfolding_all decide) (by with_unfolding_all decide)
    (by with_unfolding_all decide) (by with_unfolding_all decide)

end PennyPal

namespace PennyPal

/-! ### Membership management -/

theorem length_deactivateFirst (ms : List Member) (uid : String) :
    (deactivateFirst ms uid).length = ms.length := by
  induction ms with
  | nil => rfl
  | cons m rest ih =>
    simp only [deactivateFirst]
    split <;> simp [ih]

theorem length_reactivate (ms : List Member) (uid : String) (now : Nat) :
    (reactivate ms uid now).length = ms.length := by
  induction ms with
  | nil => rfl
  | cons m rest ih =>
    simp only [reactivate]
    split <;> simp [ih]

theorem map_userId_reactivate (ms : List Member) (uid : String) (now : Nat) :
    (reactivate ms uid now).map (fun m => m.userId) =
      ms.map (fun m => m.userId) := by
  induction ms with
  | nil => rfl
  | cons m rest ih =>
    simp only [reactivate]
    split <;> simp [ih]

theorem reactivate_mem (ms : List Member) (uid : String) (now : Nat)
    (h : ∃ m ∈ ms, m.userId = uid) :
    ∃ m ∈ reactivate ms uid now,
      m.userId = uid ∧ m.isActive = true ∧ m.joinedAt = now := by
  induction ms with
  | nil => simp at h
  | cons m rest ih =>
    by_cases hm : m.userId = uid
    · refine ⟨{ m with isActive := true, joinedAt := now }, ?_, hm, rfl, rfl⟩
      simp [reactivate, hm]
    · have hrest : ∃ m2 ∈ rest, m2.userId = uid := by
        obtain ⟨m2, hm2, hu⟩ := h
        rcases List.mem_cons.1 hm2 with h1 | h1
        · exact absurd (h1 ▸ hu) hm
        · exact ⟨m2, h1, hu⟩
      obtain ⟨m2, hm2, hprops⟩ := ih hrest
      refine ⟨m2, ?_, hprops⟩
      simp only [reactivate]
      rw [if_neg (by simp [hm])]
      exact List.mem_cons_of_mem _ hm2

/-- C6 (counterexample to the claim as stated).  User A's only membership
record is inactive — so A has no *active* membership — yet `removeMember`
succeeds (it looks the user up among all membership records, active or
not), instead of failing with `NotAMember`. -/
theorem claim6_counterexample :
    (removeMember gInactiveA "A").1 = none ∧
    (∀ m ∈ gInactiveA.members, ¬(m.userId = "A" ∧ m.isActive = true)) := by
  constructor <;> with_unfolding_all decide

/-- C6 (amended).  `removeMember(userId)` fails with `NotAMember` when the
user has no membership record at all (active or inactive); given any
membership record, it fails with `OutstandingDebt` when some pending debt
in any currency references the user as either party; otherwise it succeeds,
setting the first matching membership record's `isActive` to `false`
without deleting any record. -/
theorem claim6_remove_member (g : Group) (uid : String) :
    ((∀ m ∈ g.members, m.userId ≠ uid) →
      removeMember g uid = (some GroupError.NotAMember, g)) ∧
    ((∃ m ∈ g.members, m.userId = uid) →
      (∃ d ∈ g.simplifyDebt,
        (d.from_.userId = uid ∨ d.to_.userId = uid) ∧ d.status = "pending") →
      removeMember g uid = (some GroupError.OutstandingDebt, g)) ∧
    ((∃ m ∈ g.members, m.userId = uid) →
      (∀ d ∈ g.simplifyDebt,
        ¬((d.from_.userId = uid ∨ d.to_.userId = uid) ∧ d.status = "pending")) →
      (removeMember g uid).1 = none ∧
      (removeMember g uid).2.members = deactivateFirst g.members uid ∧
      (removeMember g uid).2.members.length = g.members.length) := by
  refine ⟨?_, ?_, ?_⟩
  · intro hno
    have hfind : g.members.find? (fun m => m.userId == uid) = none := by
      rw [List.find?_eq_none]
      intro m hm
      simp [hno m hm]
    simp [removeMember, hfind]
  · intro hex hdebt
    obtain ⟨m0, hfind⟩ : ∃ m0, g.members.find? (fun m => m.userId == uid) = some m0 := by
      rcases hf : g.members.find? (fun m => m.userId == uid) with _ | m0
      · rw [List.find?_eq_none] at hf
        obtain ⟨m, hm, hu⟩ := hex
        exact absurd (by simp [hu]) (hf m hm)
      · exact ⟨m0, hf⟩
    have hany : g.simplifyDebt.any (fun d =>
        (d.from_.userId == uid || d.to_.userId == uid) && d.status == "pending")
        = true := by
      rw [List.any_eq_true]
      obtain ⟨d, hd, hside, hst⟩ := hdebt
      refine ⟨d, hd, ?_⟩
      rcases hside with h | h <;> simp [h, hst]
    simp [removeMember, hfind, hany]
  · intro hex hdebt
    obtain ⟨m0, hfind⟩ : ∃ m0, g.members.find? (fun m => m.userId == uid) = some m0 := by
      rcases hf : g.members.find? (fun m => m.userId == uid) with _ | m0
      · rw [List.find?_eq_none] at hf
        obtain ⟨m, hm, hu⟩ := hex
        exact absurd (by simp [hu]) (hf m hm)
      · exact ⟨m0, hf⟩
    have hany : g.simplifyDebt.any (fun d =>
        (d.from_.userId == uid || d.to_.userId == uid) && d.status == "pending")
        = false := by
      rw [List.any_eq_false]
      intro d hd
      have := hdebt d hd
      simp only [Bool.and_eq_true, Bool.or_eq_true, beq_iff_eq]
      rintro ⟨hside, hst⟩
      exact this ⟨hside, hst⟩
    refine ⟨?_, ?_, ?_⟩
    · simp [removeMember, hfind, hany]
    · simp [removeMember, hfind, hany]
    · simp [removeMember, hfind, hany, length_deactivateFirst]

theorem claim6_witness :
    (removeMember gBC "B").1 = none ∧
    (removeMember gBC "B").2.members.length = gBC.members.length := by
  have h := (claim6_remove_member gBC "B").2.2
    (by with_unfolding_all decide) (by with_unfolding_all decide)
  exact ⟨h.1, h.2.2⟩

end PennyPal

namespace PennyPal

/-- C7.  `addMember(userId, username, role)` preserves the one-membership-
record-per-user invariant, and behaves as specified: an existing active
membership yields `AlreadyMember`; an existing inactive membership is
reactivated in place (active again, `joinedAt` refreshed, no record added);
with no existing record it fails with `CapacityExceeded` when the active
member count has reached `maxMembers`, and otherwise appends a fresh active
record — with `role` defaulting to `member` in the default-argument form
`addMemberDefault`. -/
theorem claim7_add_member (g : Group) (u un rl : String) (now : Nat)
    (hnd : (g.members.map (fun m => m.userId)).Nodup) :
    (((addMember g u un rl now).2.members.map (fun m => m.userId)).Nodup) ∧
    ((∃ m ∈ g.members, m.userId = u ∧ m.isActive = true) →
      addMember g u un rl now = (some GroupError.AlreadyMember, g)) ∧
    ((∃ m ∈ g.members, m.userId = u ∧ m.isActive = false) →
      (addMember g u un rl now).1 = none ∧
      (addMember g u un rl now).2.members = reactivate g.members u now ∧
      (addMember g u un rl now).2.members.length = g.members.length ∧
      (∃ m ∈ (addMember g u un rl now).2.members,
        m.userId = u ∧ m.isActive = true ∧ m.joinedAt = now)) ∧
    ((∀ m ∈ g.members, m.userId ≠ u) → memberCount g ≥ g.maxMembers →
      addMember g u un rl now = (some GroupError.CapacityExceeded, g)) ∧
    ((∀ m ∈ g.members, m.userId ≠ u) → memberCount g < g.maxMembers →
      addMember g u un rl now = (none, { g with members := g.members ++
        [{ userId := u, username := un, joinedAt := now, role := rl,
           isActive := true }] }) ∧
      addMemberDefault g u un now = (none, { g with members := g.members ++
        [{ userId := u, username := un, joinedAt := now, role := "member",
           isActive := true }] })) := by
  rcases hfind : g.members.find? (fun m => m.userId == u) with _ | m0
  · -- no membership record with this user id
    have hno : ∀ m ∈ g.members, m.userId ≠ u := by
      rw [List.find?_eq_none] at hfind
      intro m hm
      simpa using hfind m hm
    refine ⟨?_, ?_, ?_, ?_, ?_⟩
    · simp only [addMember, hfind]
      split_ifs with hcap
      · exact hnd
      · simp only [List.map_append, List.map_cons, List.map_nil]
        rw [List.nodup_append]
        refine ⟨hnd, List.nodup_singleton u, ?_⟩
        intro x hx
        obtain ⟨m, hm, rfl⟩ := List.mem_map.1 hx
        simp [hno m hm]
    · rintro ⟨m, hm, hu, -⟩
      exact absurd hu (hno m hm)
    · rintro ⟨m, hm, hu, -⟩
      exact absurd hu (hno m hm)
    · intro _ hcap
      simp [addMember, hfind, hcap]
    · intro _ hcap
      constructor
      · simp [addMember, hfind, not_le.2 hcap]
      · simp [addMemberDefault, addMember, hfind, not_le.2 hcap]
  · -- a record exists; by uniqueness it is the record for u
    have hmem0 : m0 ∈ g.members := List.mem_of_find?_eq_some hfind
    have hu0 : m0.userId = u := by simpa using List.find?_some hfind
    have huniq : ∀ m ∈ g.members, m.userId = u → m = m0 := by
      intro m hm hu
      exact List.inj_on_of_nodup_map hnd hm hmem0 (hu.trans hu0.symm)
    refine ⟨?_, ?_, ?_, ?_, ?_⟩
    · simp only [addMember, hfind]
      split_ifs with hact
      · simpa [map_userId_reactivate] using hnd
      · exact hnd
    · rintro ⟨m, hm, hu, hact⟩
      have hm0 : m = m0 := huniq m hm hu
      subst hm0
      simp [addMember, hfind, hact]
    · rintro ⟨m, hm, hu, hact⟩
      have hm0 : m = m0 := huniq m hm hu
      subst hm0
      have hre := reactivate_mem g.members u now ⟨m, hm, hu⟩
      simp only [addMember, hfind, hact]
      refine ⟨rfl, rfl, ?_, ?_⟩
      · simp [length_reactivate]
      · simpa using hre
    · rintro hno -
      exact absurd hu0 (hno m0 hmem0)
    · rintro hno -
      exact absurd hu0 (hno m0 hmem0)

theorem claim7_witness :
    ((addMember gInactiveA "A" "alice" "member" 9).1 = none ∧
      (addMember gInactiveA "A" "alice" "member" 9).2.members.length =
        gInactiveA.members.length) ∧
    addMemberDefault gBC "D" "dana" 9 = (none, { gBC with
      members := gBC.members ++
        [{ userId := "D", username := "dana", joinedAt := 9, role := "member", isActive := true }] }) := by
  constructor
  · have h := (claim7_add_member gInactiveA "A" "alice" "member" 9
      (by with_unfolding_all decide)).2.2.1 (by with_unfolding_all decide)
    exact ⟨h.1, h.2.2.1⟩
  · exact ((claim7_add_member gBC "D" "dana" "member" 9
      (by with_unfolding_all decide)).2.2.2.2 (by with_unfolding_all decide)
      (by with_unfolding_all decide)).2

end PennyPal

namespace PennyPal

/-- C8 (evaluation at the failing input).  In the reachable scenario
rm1–rm5 (A pays 300 split over A, B, C; both derived debts are settled; A
is removed; B adds a 60 expense split over B and C), the recomputation does
NOT keep A's historical expense in the balance computation: A's balance
slot is `NaN` (A is never initialised, and `undefined + 300` is `NaN` in
JS), A is silently dropped from creditors/debtors, and — with no creditor
left — the recomputation emits NO debts at all, although B's and C's
balances are −70 and −130.  The spec's claim that a removed member's
history keeps counting and that the member can still appear in a recomputed
Debt does not hold in the code. -/
theorem claim8_removed_member_nan :
    (removeMember rm3 "A").1 = none ∧
    (∀ m ∈ rm4.members, m.userId = "A" → m.isActive = false) ∧
    (∃ e ∈ rm5.billSplit, e.paidBy = "A") ∧
    alookup (currencyBalances rm5 "IDR") "A" = some none ∧
    alookup (currencyBalances rm5 "IDR") "B" = some (some (-70)) ∧
    alookup (currencyBalances rm5 "IDR") "C" = some (some (-130)) ∧
    rm5.simplifyDebt = [] := by
  refine ⟨?_, ?_, ?_, ?_, ?_, ?_, ?_⟩ <;> with_unfolding_all decide

/-- Corroborating instance for the settlement-minimality bound at a
concrete group: with an empty ledger no member's balance exceeds the
tolerance and the emitted debt list is empty. -/
theorem emptyLedgerNoDebts :
    nonzeroBalanceCount gBC "IDR" = 0 ∧
    ((calculateDebts gBC).simplifyDebt.filter (fun d => d.currency == "IDR")) = [] := by
  constructor <;> with_unfolding_all decide

end PennyPal
